import Mathlib

/-!
Shallow embedding of `src/pdf/extract_structure.py` (PDF structure
extractor): text-block collection, body-font-size estimation, heading
inference with deduplication, table normalization, title selection and
the input-dispatch of `extract_structure`.  Python floats are modelled
as rationals (ℚ), Python strings as Lean `String`, the PyMuPDF engine
as an abstract record of page data.
-/

namespace PdfExtract

/-! ## String helpers (modelling Python str operations) -/

/-- Whitespace-trim of a character list, modelling Python `str.strip()`. -/
def trimChars (l : List Char) : List Char :=
  ((l.dropWhile Char.isWhitespace).reverse.dropWhile Char.isWhitespace).reverse

/-- Trim a string, modelling Python `str.strip()`. -/
def strTrim (s : String) : String := ⟨trimChars s.data⟩

/-- Lower-case a string character-wise, modelling Python `str.lower()`
(ASCII-faithful). -/
def strLower (s : String) : String := ⟨s.data.map Char.toLower⟩

/-- Does `pat` occur as a contiguous subsequence of `l`?  Models Python
substring containment `pat in s`. -/
def containsSeq (pat : List Char) : List Char → Bool
  | [] => pat.isPrefixOf []
  | c :: cs => pat.isPrefixOf (c :: cs) || containsSeq pat cs

/-- Python `s.startswith(p)`. -/
def startsWithStr (s p : String) : Bool := p.data.isPrefixOf s.data

/-- Python `s.endswith(p)`. -/
def endsWithStr (s p : String) : Bool := p.data.isSuffixOf s.data

/-- Number of alphabetic characters, modelling
`sum(1 for c in text if c.isalpha())`. -/
def alphaCount (s : String) : ℕ := (s.data.filter Char.isAlpha).length

/-! ## Rounding (modelling Python `round(x, n)`) -/

/-- Round a rational to the nearest integer, ties to even
(Python banker's rounding). -/
def roundHalfEven (q : ℚ) : ℤ :=
  let f := ⌊q⌋
  if q - f < 1/2 then f
  else if 1/2 < q - f then f + 1
  else if f % 2 = 0 then f else f + 1

/-- Python `round(q, n)`: round to `n` decimal places. -/
def pyround (n : ℕ) (q : ℚ) : ℚ := (roundHalfEven (q * 10 ^ n) : ℚ) / 10 ^ n

/-! ## Data model -/

/-- One span of the engine's `page.get_text("dict")` output
(text, size, font, flags). -/
structure Span where
  text : String
  size : ℚ
  font : String
  flags : ℕ
deriving DecidableEq

/-- One line: its spans and its bounding box `[x0, y0, x1, y1]`. -/
structure Line where
  spans : List Span
  x0 : ℚ
  y0 : ℚ
  x1 : ℚ
  y1 : ℚ
deriving DecidableEq

/-- One raw block of the text dict: its `type` field and its lines
(type 0 = text). -/
structure RawBlock where
  btype : ℕ
  lines : List Line
deriving DecidableEq

/-- One page as reported by the engine: its text-dict blocks, plus the
result of `find_tables` — `none` models an engine without the
capability (`AttributeError`), `some ts` the extracted row data of each
found table. -/
structure Page where
  textBlocks : List RawBlock
  findTables : Option (List (List (List String)))
deriving DecidableEq

/-- `TextBlock` dataclass of the source. -/
structure TextBlock where
  text : String
  font_size : ℚ
  font_name : String
  is_bold : Bool
  page : ℕ
  x : ℚ
  y : ℚ
deriving DecidableEq

/-- One heading record `{level, text, page, font_size}`. -/
structure Heading where
  level : ℕ
  text : String
  page : ℕ
  font_size : ℚ
deriving DecidableEq

/-- One table record `{page, rows, cols, headers}`. -/
structure Table where
  page : ℕ
  rows : ℕ
  cols : ℕ
  headers : List String
deriving DecidableEq

/-- The result dict of `extract_structure`. -/
structure StructureResult where
  title : String
  body_font_size : ℚ
  headings : List Heading
  tables : List Table
  page_count : ℕ
deriving DecidableEq

/-- The PyMuPDF engine as a black box: opening a document (by bytes or
by path) yields its list of pages. -/
structure Engine where
  openBytes : List UInt8 → List Page
  openPath : String → List Page

/-! ## extract_text_blocks -/

/-- Is a span bold?  `"bold" in name.lower() or "black" in name.lower()
or (flags & 2**4) != 0`, evaluated on the span whose size sets a new
line maximum. -/
def spanBold (s : Span) : Bool :=
  containsSeq "bold".data (strLower s.font).data ||
  containsSeq "black".data (strLower s.font).data ||
  (s.flags &&& 16) != 0

/-- Per-line accumulator: concatenated text, current maximum size, and
the font name / boldness recorded at the last new maximum. -/
structure LineAcc where
  text : String
  size : ℚ
  font : String
  bold : Bool
deriving DecidableEq

/-- Process one span of a line: skip it when its trimmed text is empty,
otherwise append the text and, when the size strictly exceeds the
running maximum, overwrite size, font name and boldness. -/
def procSpan (acc : LineAcc) (s : Span) : LineAcc :=
  let t := strTrim s.text
  if t = "" then acc
  else
    let acc1 : LineAcc := ⟨acc.text ++ t ++ " ", acc.size, acc.font, acc.bold⟩
    if acc1.size < s.size then ⟨acc1.text, s.size, s.font, spanBold s⟩ else acc1

/-- Fold a line's spans into the accumulator, starting empty. -/
def lineFold (ln : Line) : LineAcc := ln.spans.foldl procSpan ⟨"", 0, "", false⟩

/-- Turn one line into a `TextBlock` (page number already 1-based);
`none` when the joined trimmed text is empty or the maximum size is
not positive. -/
def lineToBlock (pg : ℕ) (ln : Line) : Option TextBlock :=
  let acc := lineFold ln
  let t := strTrim acc.text
  if t ≠ "" ∧ 0 < acc.size then
    some ⟨t, acc.size, acc.font, acc.bold, pg, ln.x0, ln.y0⟩
  else none

/-- `extract_text_blocks`: all surviving lines of all type-0 blocks of
all pages, pages numbered from 1. -/
def extract_text_blocks (pages : List Page) : List TextBlock :=
  pages.enum.flatMap fun ip =>
    ip.2.textBlocks.flatMap fun rb =>
      if rb.btype = 0 then rb.lines.filterMap (lineToBlock (ip.1 + 1)) else []

/-! ## find_body_font_size -/

/-- The rounded-to-0.1 font sizes of all blocks. -/
def roundedSizes (blocks : List TextBlock) : List ℚ :=
  blocks.map fun b => pyround 1 b.font_size

/-- `find_body_font_size`: the most common rounded size (first maximal
occurrence wins, as for `Counter.most_common`), default 12.0. -/
def find_body_font_size (blocks : List TextBlock) : ℚ :=
  match (roundedSizes blocks).argmax (fun s => (roundedSizes blocks).count s) with
  | some v => v
  | none => 12

/-! ## is_likely_heading -/

/-- The lower-cased patterns a heading must not start with. -/
def skipPatterns : List String :=
  ["provided ", "permission ", "reproduce ", "copyright ",
   "http://", "https://", "arxiv:", "doi:"]

/-- `is_likely_heading`: the textual candidate filter. -/
def is_likely_heading (text : String) : Bool :=
  if text.length < 2 || 150 < text.length then false
  else if containsSeq ". ".data text.data.dropLast then false
  else if 2 * alphaCount text < text.length then false
  else if skipPatterns.any (fun p => startsWithStr (strLower text) p) then false
  else if endsWithStr text "*" || endsWithStr text "∗" then false
  else true

/-! ## infer_headings -/

/-- Default of the `min_ratio` parameter. -/
def minRatioDefault : ℚ := 1.15

/-- The level cascade of `infer_headings`, first matching rule wins;
0 means "not a heading". -/
def headingLevel (r : ℚ) (bold : Bool) ( min_ratio : ℚ) : ℕ :=
  if 2.0 ≤ r ∨ (1.5 ≤ r ∧ bold) then 1
  else if 1.5 ≤ r ∨ (1.3 ≤ r ∧ bold) then 2
  else if 1.25 ≤ r ∨ (1.15 ≤ r ∧ bold) then 3
  else if min_ratio ≤ r ∨ bold then 4
  else 0

/-- The ratio `font_size / body_size` (1.0 when `body_size ≤ 0`). -/
def ratioOf (b : TextBlock) (body_size : ℚ) : ℚ :=
  if 0 < body_size then b.font_size / body_size else 1

/-- The loop of `infer_headings`: `seen` is the set of texts of already
accepted headings (checked first; extended only on acceptance). -/
def inferHeadingsAux (body_size min_ratio : ℚ) :
    List TextBlock → List String → List Heading
  | [], _ => []
  | b :: bs, seen =>
    if b.text ∈ seen then inferHeadingsAux body_size min_ratio bs seen
    else if is_likely_heading b.text then
      let lvl := headingLevel (ratioOf b body_size) b.is_bold min_ratio
      if 0 < lvl then
        ⟨lvl, b.text, b.page, pyround 2 b.font_size⟩ ::
          inferHeadingsAux body_size min_ratio bs (b.text :: seen)
      else inferHeadingsAux body_size min_ratio bs seen
    else inferHeadingsAux body_size min_ratio bs seen

/-- `infer_headings`. -/
def infer_headings (blocks : List TextBlock) (body_size : ℚ) ( min_ratio : ℚ) :
    List Heading :=
  inferHeadingsAux body_size min_ratio blocks []

/-- The spec's ordering of the same loop (§4.3): filter first, then
level assignment, and deduplication as the last step, skipping a
candidate whose text already appears among accepted headings. -/
def inferHeadingsSpecAux (body_size min_ratio : ℚ) :
    List TextBlock → List String → List Heading
  | [], _ => []
  | b :: bs, seen =>
    if is_likely_heading b.text then
      let lvl := headingLevel (ratioOf b body_size) b.is_bold min_ratio
      if 0 < lvl then
        if b.text ∈ seen then inferHeadingsSpecAux body_size min_ratio bs seen
        else
          ⟨lvl, b.text, b.page, pyround 2 b.font_size⟩ ::
            inferHeadingsSpecAux body_size min_ratio bs (b.text :: seen)
      else inferHeadingsSpecAux body_size min_ratio bs seen
    else inferHeadingsSpecAux body_size min_ratio bs seen

/-- Spec-ordered heading inference (filter → level → dedup). -/
def inferHeadingsSpec (blocks : List TextBlock) (body_size : ℚ) ( min_ratio : ℚ) :
    List Heading :=
  inferHeadingsSpecAux body_size min_ratio blocks []

/-! ## detect_tables -/

/-- The table record built from one extracted data matrix
(`rows = len(data)`, `cols = len(data[0]) if data else 0`,
`headers = data[0] if data else []`). -/
def tableOf (pg : ℕ) (data : List (List String)) : Table :=
  ⟨pg, data.length, (data.headI).length, data.headI⟩

/-- Tables of one page: nothing when the engine lacks `find_tables`;
otherwise each extracted data matrix with at least 2 rows
(`if data and len(data) > 1`). -/
def pageTables (pg : ℕ) (p : Page) : List Table :=
  match p.findTables with
  | none => []
  | some ts => ts.filterMap fun data =>
      if data ≠ [] ∧ 1 < data.length then some (tableOf pg data) else none

/-- `detect_tables`, pages numbered from 1. -/
def detect_tables (pages : List Page) : List Table :=
  pages.enum.flatMap fun ip => pageTables (ip.1 + 1) ip.2

/-! ## extract_structure -/

/-- The title loop: text of the first heading with `page == 1` and
`level <= 2`, else the empty string. -/
def pickTitle : List Heading → String
  | [] => ""
  | h :: hs => if h.page = 1 ∧ h.level ≤ 2 then h.text else pickTitle hs

/-- The body of `extract_structure` on an opened document. -/
def extractDoc (pages : List Page) : StructureResult :=
  let blocks := extract_text_blocks pages
  let body_size := find_body_font_size blocks
  let headings := infer_headings blocks body_size minRatioDefault
  let tables := detect_tables pages
  { title := pickTitle headings
    body_font_size := pyround 2 body_size
    headings := headings
    tables := tables
    page_count := pages.length }

/-- Python truthiness of the optional `pdf_bytes` argument
(`None` and `b""` are falsy). -/
def truthyBytes : Option (List UInt8) → Bool
  | none => false
  | some bs => bs ≠ []

/-- Python truthiness of the optional `pdf_path` argument
(`None` and `""` are falsy). -/
def truthyPath : Option String → Bool
  | none => false
  | some s => s ≠ ""

/-- `extract_structure`: dispatch on the two optional arguments, then
run the pipeline; the `ValueError` branch is the `Except.error`. -/
def extract_structure (e : Engine) (pdf_path : Option String)
    (pdf_bytes : Option (List UInt8)) : Except String StructureResult :=
  if truthyBytes pdf_bytes then
    Except.ok (extractDoc (e.openBytes (pdf_bytes.getD [])))
  else if truthyPath pdf_path then
    Except.ok (extractDoc (e.openPath (pdf_path.getD "")))
  else Except.error "Must provide pdf_path or pdf_bytes"

/-! ## Helper lemmas -/

theorem headingLevel_le_four (r : ℚ) (bold : Bool) ( min_ratio : ℚ) :
    headingLevel r bold min_ratio ≤ 4 := by
  unfold headingLevel
  split_ifs <;> omega

theorem inferHeadingsAux_nil (body_size min_ratio : ℚ) (seen : List String) :
    inferHeadingsAux body_size min_ratio [] seen = [] := rfl

theorem inferHeadingsAux_cons (body_size min_ratio : ℚ) (b : TextBlock)
    (bs : List TextBlock) (seen : List String) :
    inferHeadingsAux body_size min_ratio (b :: bs) seen =
      if b.text ∈ seen then inferHeadingsAux body_size min_ratio bs seen
      else if is_likely_heading b.text then
        if 0 < headingLevel (ratioOf b body_size) b.is_bold min_ratio then
          ⟨headingLevel (ratioOf b body_size) b.is_bold min_ratio, b.text, b.page,
              pyround 2 b.font_size⟩ ::
            inferHeadingsAux body_size min_ratio bs (b.text :: seen)
        else inferHeadingsAux body_size min_ratio bs seen
      else inferHeadingsAux body_size min_ratio bs seen := rfl

theorem mem_inferHeadingsAux (body_size min_ratio : ℚ) :
    ∀ (bs : List TextBlock) (seen : List String) (h : Heading),
      h ∈ inferHeadingsAux body_size min_ratio bs seen →
      ∃ b ∈ bs, is_likely_heading b.text = true ∧
        0 < headingLevel (ratioOf b body_size) b.is_bold min_ratio ∧
        h = ⟨headingLevel (ratioOf b body_size) b.is_bold min_ratio, b.text, b.page,
          pyround 2 b.font_size⟩ := by
  intro bs
  induction bs with
  | nil => intro seen h hh; simp [inferHeadingsAux_nil] at hh
  | cons b bs ih =>
    intro seen h hh
    rw [inferHeadingsAux_cons] at hh
    by_cases h1 : b.text ∈ seen
    · rw [if_pos h1] at hh
      obtain ⟨b2, hb2, rest⟩ := ih seen h hh
      exact ⟨b2, List.mem_cons_of_mem _ hb2, rest⟩
    · rw [if_neg h1] at hh
      by_cases h2 : is_likely_heading b.text
      · rw [if_pos h2] at hh
        by_cases h3 : 0 < headingLevel (ratioOf b body_size) b.is_bold min_ratio
        · rw [if_pos h3] at hh
          rcases List.mem_cons.mp hh with heq | htail
          · exact ⟨b, List.mem_cons_self _ _, h2, h3, heq⟩
          · obtain ⟨b2, hb2, rest⟩ := ih _ h htail
            exact ⟨b2, List.mem_cons_of_mem _ hb2, rest⟩
        · rw [if_neg h3] at hh
          obtain ⟨b2, hb2, rest⟩ := ih seen h hh
          exact ⟨b2, List.mem_cons_of_mem _ hb2, rest⟩
      · rw [if_neg h2] at hh
        obtain ⟨b2, hb2, rest⟩ := ih seen h hh
        exact ⟨b2, List.mem_cons_of_mem _ hb2, rest⟩

/-- The four blocks of the spec's level-assignment scenario
(body size 10.0). -/
def scnBlocks : List TextBlock :=
  [⟨"Deep Learning", 22, "F", false, 1, 0, 0⟩,
   ⟨"Introduction", 13, "F", true, 1, 0, 0⟩,
   ⟨"Related Work", 11.6, "F", false, 2, 0, 0⟩,
   ⟨"Conclusion", 10, "F", false, 2, 0, 0⟩]

/-! ## Claims -/

/-- Claim C1: every heading accepted by `infer_headings` has a level in
{1,2,3,4} that equals the first-matching-rule cascade `headingLevel`
applied to the block's ratio (`font_size / body_size`, or 1.0 when
`body_size ≤ 0`) and boldness; and in the concrete scenario with body
size 10.0, a non-bold 22.0pt block gets level 1, a bold 13.0pt block
level 2, a non-bold 11.6pt block level 4, and a non-bold 10.0pt block
is absent from the output. -/
theorem C1_level_cascade :
    (∀ (blocks : List TextBlock) (body_size min_ratio : ℚ) (h : Heading),
        h ∈ infer_headings blocks body_size min_ratio →
        (1 ≤ h.level ∧ h.level ≤ 4) ∧
        ∃ b ∈ blocks, h.text = b.text ∧ h.page = b.page ∧
          h.font_size = pyround 2 b.font_size ∧
          h.level = headingLevel (ratioOf b body_size) b.is_bold min_ratio) ∧
    infer_headings scnBlocks 10 minRatioDefault =
      [⟨1, "Deep Learning", 1, 22⟩, ⟨2, "Introduction", 1, 13⟩,
       ⟨4, "Related Work", 2, 11.6⟩] := by
  constructor
  · intro blocks body_size min_ratio h hh
    obtain ⟨b, hb, _, hpos, heq⟩ := mem_inferHeadingsAux body_size min_ratio blocks [] h hh
    subst heq
    refine ⟨⟨hpos, headingLevel_le_four _ _ _⟩, b, hb, rfl, rfl, rfl, rfl⟩
  · have h1 : is_likely_heading "Deep Learning" = true := by decide
    have h2 : is_likely_heading "Introduction" = true := by decide
    have h3 : is_likely_heading "Related Work" = true := by decide
    have h4 : is_likely_heading "Conclusion" = true := by decide
    have n1 : ("Introduction" : String) ≠ "Deep Learning" := by decide
    have n2 : ("Related Work" : String) ≠ "Deep Learning" := by decide
    have n3 : ("Related Work" : String) ≠ "Introduction" := by decide
    norm_num [scnBlocks, infer_headings, inferHeadingsAux, h1, h2, h3, h4, n1, n2, n3,
      ratioOf, headingLevel, minRatioDefault, pyround, roundHalfEven]

/-- Witness for C1 at the scenario input: the level-1 heading produced
for the 22.0pt block satisfies the cascade characterization. -/
theorem C1_level_cascade_witness :
    (1 ≤ (Heading.mk 1 "Deep Learning" 1 22).level ∧
      (Heading.mk 1 "Deep Learning" 1 22).level ≤ 4) ∧
    ∃ b ∈ scnBlocks, (Heading.mk 1 "Deep Learning" 1 22).text = b.text ∧
      (Heading.mk 1 "Deep Learning" 1 22).page = b.page ∧
      (Heading.mk 1 "Deep Learning" 1 22).font_size = pyround 2 b.font_size ∧
      (Heading.mk 1 "Deep Learning" 1 22).level =
        headingLevel (ratioOf b 10) b.is_bold minRatioDefault :=
  C1_level_cascade.1 scnBlocks 10 minRatioDefault ⟨1, "Deep Learning", 1, 22⟩
    (by rw [C1_level_cascade.2]; exact List.mem_cons_self _ _)

theorem inferHeadingsAux_texts (body_size min_ratio : ℚ) :
    ∀ (bs : List TextBlock) (seen : List String),
      ((inferHeadingsAux body_size min_ratio bs seen).map Heading.text).Nodup ∧
      ∀ t ∈ (inferHeadingsAux body_size min_ratio bs seen).map Heading.text,
        t ∉ seen := by
  intro bs
  induction bs with
  | nil => intro seen; simp [inferHeadingsAux_nil]
  | cons b bs ih =>
    intro seen
    rw [inferHeadingsAux_cons]
    by_cases h1 : b.text ∈ seen
    · rw [if_pos h1]; exact ih seen
    · rw [if_neg h1]
      by_cases h2 : is_likely_heading b.text
      · rw [if_pos h2]
        by_cases h3 : 0 < headingLevel (ratioOf b body_size) b.is_bold min_ratio
        · rw [if_pos h3]
          obtain ⟨ihnd, ihseen⟩ := ih (b.text :: seen)
          simp only [List.map_cons, List.nodup_cons]
          refine ⟨⟨fun hmem => ?_, ihnd⟩, ?_⟩
          · exact ihseen _ hmem (List.mem_cons_self _ _)
          · intro t ht
            rcases List.mem_cons.mp ht with rfl | ht2
            · exact h1
            · exact fun hts => ihseen t ht2 (List.mem_cons_of_mem _ hts)
        · rw [if_neg h3]; exact ih seen
      · rw [if_neg h2]; exact ih seen

/-- Claim C4: the headings list returned by `infer_headings` never
contains two entries with identical text: a candidate whose exact text
was already accepted is skipped, so the output texts are pairwise
distinct. -/
theorem C4_heading_text_unique (blocks : List TextBlock)
    (body_size min_ratio : ℚ) :
    ((infer_headings blocks body_size min_ratio).map Heading.text).Nodup :=
  (inferHeadingsAux_texts body_size min_ratio blocks []).1

/-- Witness for C4 at the concrete scenario block list. -/
theorem C4_heading_text_unique_witness :
    ((infer_headings scnBlocks 10 minRatioDefault).map Heading.text).Nodup :=
  C4_heading_text_unique scnBlocks 10 minRatioDefault

theorem inferHeadingsSpecAux_nil (body_size min_ratio : ℚ) (seen : List String) :
    inferHeadingsSpecAux body_size min_ratio [] seen = [] := rfl

theorem inferHeadingsSpecAux_cons (body_size min_ratio : ℚ) (b : TextBlock)
    (bs : List TextBlock) (seen : List String) :
    inferHeadingsSpecAux body_size min_ratio (b :: bs) seen =
      if is_likely_heading b.text then
        if 0 < headingLevel (ratioOf b body_size) b.is_bold min_ratio then
          if b.text ∈ seen then inferHeadingsSpecAux body_size min_ratio bs seen
          else
            ⟨headingLevel (ratioOf b body_size) b.is_bold min_ratio, b.text, b.page,
                pyround 2 b.font_size⟩ ::
              inferHeadingsSpecAux body_size min_ratio bs (b.text :: seen)
        else inferHeadingsSpecAux body_size min_ratio bs seen
      else inferHeadingsSpecAux body_size min_ratio bs seen := rfl

theorem inferHeadingsAux_eq_specAux (body_size min_ratio : ℚ) :
    ∀ (bs : List TextBlock) (seen : List String),
      inferHeadingsAux body_size min_ratio bs seen =
        inferHeadingsSpecAux body_size min_ratio bs seen := by
  intro bs
  induction bs with
  | nil => intro seen; rfl
  | cons b bs ih =>
    intro seen
    rw [inferHeadingsAux_cons, inferHeadingsSpecAux_cons]
    by_cases h1 : b.text ∈ seen
    · rw [if_pos h1]
      by_cases h2 : is_likely_heading b.text
      · rw [if_pos h2]
        by_cases h3 : 0 < headingLevel (ratioOf b body_size) b.is_bold min_ratio
        · rw [if_pos h3, if_pos h1]; exact ih seen
        · rw [if_neg h3]; exact ih seen
      · rw [if_neg h2]; exact ih seen
    · rw [if_neg h1]
      by_cases h2 : is_likely_heading b.text
      · rw [if_pos h2, if_pos h2]
        by_cases h3 : 0 < headingLevel (ratioOf b body_size) b.is_bold min_ratio
        · rw [if_pos h3, if_pos h3, if_neg h1, ih]
        · rw [if_neg h3, if_neg h3]; exact ih seen
      · rw [if_neg h2, if_neg h2]; exact ih seen

/-- Claim C9: checking the duplicate-text set before the candidate
filter and the level cascade (as the code does) produces exactly the
same heading list as the spec's ordering (filter, then level
assignment, then dedup last), because only accepted headings are ever
added to the seen set. -/
theorem C9_dedup_order_equiv (blocks : List TextBlock)
    (body_size min_ratio : ℚ) :
    infer_headings blocks body_size min_ratio =
      inferHeadingsSpec blocks body_size min_ratio :=
  inferHeadingsAux_eq_specAux body_size min_ratio blocks []

/-- Witness for C9 at the concrete scenario block list. -/
theorem C9_dedup_order_equiv_witness :
    infer_headings scnBlocks 10 minRatioDefault =
      inferHeadingsSpec scnBlocks 10 minRatioDefault :=
  C9_dedup_order_equiv scnBlocks 10 minRatioDefault

/-- Claim C2: `find_body_font_size` returns 12.0 on an empty block
list; on a non-empty list it returns a rounded-to-0.1 font size that
some block attains and whose frequency among the rounded sizes is
maximal (the tie-break among maximal values is implementation-defined
and not claimed). -/
theorem C2_body_font_mode :
    find_body_font_size [] = 12 ∧
    ∀ (blocks : List TextBlock), blocks ≠ [] →
      ∃ b ∈ blocks, find_body_font_size blocks = pyround 1 b.font_size ∧
        ∀ b2 ∈ blocks,
          (roundedSizes blocks).count (pyround 1 b2.font_size) ≤
            (roundedSizes blocks).count (find_body_font_size blocks) := by
  constructor
  · rfl
  · intro blocks hne
    have hs : roundedSizes blocks ≠ [] := by simp [roundedSizes, hne]
    obtain ⟨v, hv⟩ : ∃ v, (roundedSizes blocks).argmax
        (fun s => (roundedSizes blocks).count s) = some v := by
      cases h : (roundedSizes blocks).argmax
          (fun s => (roundedSizes blocks).count s) with
      | none => exact absurd (List.argmax_eq_none.mp h) hs
      | some v => exact ⟨v, rfl⟩
    have hfb : find_body_font_size blocks = v := by
      simp [find_body_font_size, hv]
    have hvm : v ∈ (roundedSizes blocks).argmax
        (fun s => (roundedSizes blocks).count s) := Option.mem_def.mpr hv
    obtain ⟨b, hb, hbv⟩ := List.mem_map.mp (List.argmax_mem hvm)
    refine ⟨b, hb, hfb.trans hbv.symm, ?_⟩
    intro b2 hb2
    rw [hfb]
    exact List.le_of_mem_argmax (List.mem_map_of_mem _ hb2) hvm

/-- Witness for C2 at the concrete scenario block list. -/
theorem C2_body_font_mode_witness :
    ∃ b ∈ scnBlocks, find_body_font_size scnBlocks = pyround 1 b.font_size ∧
      ∀ b2 ∈ scnBlocks,
        (roundedSizes scnBlocks).count (pyround 1 b2.font_size) ≤
          (roundedSizes scnBlocks).count (find_body_font_size scnBlocks) :=
  C2_body_font_mode.2 scnBlocks (by simp [scnBlocks])

theorem pickTitle_nil : pickTitle [] = "" := rfl

theorem pickTitle_cons (h : Heading) (hs : List Heading) :
    pickTitle (h :: hs) =
      if h.page = 1 ∧ h.level ≤ 2 then h.text else pickTitle hs := rfl

theorem pickTitle_eq_find : ∀ hs : List Heading,
    pickTitle hs =
      ((hs.find? fun h => decide (h.page = 1 ∧ h.level ≤ 2)).map
        Heading.text).getD "" := by
  intro hs
  induction hs with
  | nil => rfl
  | cons h hs ih =>
    by_cases hp : h.page = 1 ∧ h.level ≤ 2
    · rw [pickTitle_cons, if_pos hp,
        List.find?_cons_of_pos _ (by simpa using hp)]
      rfl
    · rw [pickTitle_cons, if_neg hp,
        List.find?_cons_of_neg _ (by simpa using hp)]
      exact ih

/-- Claim C3: the title of every extraction result is the text of the
first heading (in list order) with `page == 1` and `level ≤ 2` of the
final deduplicated heading list, and the empty string when no heading
qualifies. -/
theorem C3_title_selection (pages : List Page) :
    (extractDoc pages).title =
      (((extractDoc pages).headings.find? fun h =>
          decide (h.page = 1 ∧ h.level ≤ 2)).map Heading.text).getD "" :=
  pickTitle_eq_find ((extractDoc pages).headings)

/-- Witness for C3 on the empty document. -/
theorem C3_title_selection_witness :
    (extractDoc []).title =
      (((extractDoc []).headings.find? fun h =>
          decide (h.page = 1 ∧ h.level ≤ 2)).map Heading.text).getD "" :=
  C3_title_selection []

/-- Claim C5: `is_likely_heading` accepts a text exactly when its
length is in [2, 150], the text minus its last character contains no
occurrence of ". ", at least half of its characters are alphabetic,
its lowercase form starts with none of the skip patterns, and it ends
neither with "*" nor with the Unicode asterisk operator; in
particular "This is a sentence. More text." and "1234-5678" are
rejected and "Introduction" is accepted. -/
theorem C5_heading_filter :
    (∀ t : String, is_likely_heading t = true ↔
      (2 ≤ t.length ∧ t.length ≤ 150 ∧
       containsSeq ". ".data t.data.dropLast = false ∧
       t.length ≤ 2 * alphaCount t ∧
       (∀ p ∈ skipPatterns, startsWithStr (strLower t) p = false) ∧
       endsWithStr t "*" = false ∧ endsWithStr t "∗" = false)) ∧
    is_likely_heading "This is a sentence. More text." = false ∧
    is_likely_heading "1234-5678" = false ∧
    is_likely_heading "Introduction" = true := by
  refine ⟨?_, by decide, by decide, by decide⟩
  intro t
  unfold is_likely_heading
  split_ifs with h1 h2 h3 h4 h5
  · simp only [Bool.or_eq_true, decide_eq_true_eq] at h1
    simp only [false_iff]
    rintro ⟨ha, hb, -⟩
    omega
  · simp only [false_iff]
    rintro ⟨-, -, hc, -⟩
    rw [h2] at hc
    exact Bool.true_eq_false.mp hc
  · simp only [false_iff]
    rintro ⟨-, -, -, hd, -⟩
    omega
  · simp only [List.any_eq_true] at h4
    obtain ⟨p, hp, hps⟩ := h4
    simp only [false_iff]
    rintro ⟨-, -, -, -, hall, -⟩
    rw [hall p hp] at hps
    exact Bool.false_ne_true hps
  · simp only [Bool.or_eq_true] at h5
    simp only [false_iff]
    rintro ⟨-, -, -, -, -, he1, he2⟩
    rcases h5 with h5 | h5
    · rw [h5] at he1; exact Bool.true_eq_false.mp he1
    · rw [h5] at he2; exact Bool.true_eq_false.mp he2
  · simp only [true_iff]
    simp only [Bool.or_eq_true, decide_eq_true_eq, not_or, not_lt] at h1
    simp only [List.any_eq_true, not_exists] at h4
    simp only [Bool.or_eq_true, not_or] at h5
    refine ⟨h1.1, h1.2, Bool.not_eq_true _ ▸ h2, le_of_not_lt h3, ?_, ?_, ?_⟩
    · intro p hp
      have := h4 p
      simp only [not_and] at this
      exact Bool.not_eq_true _ ▸ (this hp)
    · exact Bool.not_eq_true _ ▸ h5.1
    · exact Bool.not_eq_true _ ▸ h5.2

/-- Witness for C5: the characterization instantiated at
"Introduction". -/
theorem C5_heading_filter_witness :
    is_likely_heading "Introduction" = true ↔
      (2 ≤ ("Introduction" : String).length ∧
       ("Introduction" : String).length ≤ 150 ∧
       containsSeq ". ".data ("Introduction" : String).data.dropLast = false ∧
       ("Introduction" : String).length ≤ 2 * alphaCount "Introduction" ∧
       (∀ p ∈ skipPatterns,
          startsWithStr (strLower "Introduction") p = false) ∧
       endsWithStr "Introduction" "*" = false ∧
       endsWithStr "Introduction" "∗" = false) :=
  C5_heading_filter.1 "Introduction"

theorem mem_pageTables {pg : ℕ} {p : Page} {t : Table} :
    t ∈ pageTables pg p ↔
      ∃ ts, p.findTables = some ts ∧
        ∃ data ∈ ts, (data ≠ [] ∧ 1 < data.length) ∧ t = tableOf pg data := by
  unfold pageTables
  cases h : p.findTables with
  | none =>
    simp only [List.not_mem_nil, false_iff]
    rintro ⟨ts, hts, -⟩
    exact Option.noConfusion hts
  | some ts =>
    rw [List.mem_filterMap]
    constructor
    · rintro ⟨data, hd, hf⟩
      by_cases hc : data ≠ [] ∧ 1 < data.length
      · rw [if_pos hc] at hf
        exact ⟨ts, rfl, data, hd, hc, (Option.some.inj hf).symm⟩
      · rw [if_neg hc] at hf
        exact Option.noConfusion hf
    · rintro ⟨ts2, hts2, data, hd, hc, rfl⟩
      obtain rfl := Option.some.inj hts2
      exact ⟨data, hd, if_pos hc⟩

theorem mem_detect_tables {pages : List Page} {t : Table} :
    t ∈ detect_tables pages ↔
      ∃ i p, pages[i]? = some p ∧ t ∈ pageTables (i + 1) p := by
  unfold detect_tables
  rw [List.mem_flatMap]
  constructor
  · rintro ⟨⟨i, p⟩, hip, ht⟩
    rw [List.mem_enum_iff_getElem?] at hip
    exact ⟨i, p, hip, ht⟩
  · rintro ⟨i, p, hip, ht⟩
    exact ⟨(i, p), List.mem_enum_iff_getElem?.mpr hip, ht⟩

/-- Claim C6: a table reported by the engine appears in the output of
`detect_tables` exactly when its extracted data has at least 2 rows;
every included record has `rows` = the number of extracted rows (hence
at least 2), `cols` = the length of the first extracted row and
`headers` = the first extracted row; and the spec scenario holds:
`[["A","B"],["1","2"]]` is accepted as `rows=2, cols=2,
headers=["A","B"]` while `[["A","B"]]` is discarded. -/
theorem C6_table_rule :
    (∀ (pages : List Page) (t : Table), t ∈ detect_tables pages → 2 ≤ t.rows) ∧
    (∀ (pages : List Page) (t : Table), t ∈ detect_tables pages →
       ∃ i p, pages[i]? = some p ∧ ∃ ts, p.findTables = some ts ∧
         ∃ data ∈ ts, 2 ≤ data.length ∧
           t = ⟨i + 1, data.length, data.headI.length, data.headI⟩) ∧
    (∀ (pages : List Page) (i : ℕ) (p : Page)
       (ts : List (List (List String))) (data : List (List String)),
       pages[i]? = some p → p.findTables = some ts → data ∈ ts →
       2 ≤ data.length →
       (⟨i + 1, data.length, data.headI.length, data.headI⟩ : Table) ∈
         detect_tables pages) ∧
    detect_tables [⟨[], some [[["A", "B"], ["1", "2"]]]⟩] =
      [⟨1, 2, 2, ["A", "B"]⟩] ∧
    detect_tables [⟨[], some [[["A", "B"]]]⟩] = [] := by
  have hsound : ∀ (pages : List Page) (t : Table), t ∈ detect_tables pages →
      ∃ i p, pages[i]? = some p ∧ ∃ ts, p.findTables = some ts ∧
        ∃ data ∈ ts, 2 ≤ data.length ∧
          t = ⟨i + 1, data.length, data.headI.length, data.headI⟩ := by
    intro pages t ht
    obtain ⟨i, p, hip, hpt⟩ := mem_detect_tables.mp ht
    obtain ⟨ts, hts, data, hd, hc, rfl⟩ := mem_pageTables.mp hpt
    exact ⟨i, p, hip, ts, hts, data, hd, by omega, rfl⟩
  refine ⟨?_, hsound, ?_, by decide, by decide⟩
  · intro pages t ht
    obtain ⟨i, p, -, ts, -, data, -, hlen, rfl⟩ := hsound pages t ht
    exact hlen
  · intro pages i p ts data hip hts hd hlen
    refine mem_detect_tables.mpr ⟨i, p, hip, ?_⟩
    refine mem_pageTables.mpr ⟨ts, hts, data, hd, ⟨?_, by omega⟩, rfl⟩
    intro hnil
    rw [hnil] at hlen
    simp at hlen

/-- Witness for C6: the two-row table of the spec scenario is produced
by `detect_tables` on its one-page document. -/
theorem C6_table_rule_witness :
    (⟨0 + 1, [["A", "B"], ["1", "2"]].length,
        ([["A", "B"], ["1", "2"]] : List (List String)).headI.length,
        ([["A", "B"], ["1", "2"]] : List (List String)).headI⟩ : Table) ∈
      detect_tables [⟨[], some [[["A", "B"], ["1", "2"]]]⟩] :=
  C6_table_rule.2.2.1 [⟨[], some [[["A", "B"], ["1", "2"]]]⟩] 0
    ⟨[], some [[["A", "B"], ["1", "2"]]]⟩ [[["A", "B"], ["1", "2"]]]
    [["A", "B"], ["1", "2"]] rfl rfl (List.mem_cons_self _ _) (by decide)

theorem foldl_procSpan_invariant :
    ∀ (spans : List Span) (acc : LineAcc),
      acc.size ≤ (spans.foldl procSpan acc).size ∧
      (∀ s ∈ spans, strTrim s.text ≠ "" →
        s.size ≤ (spans.foldl procSpan acc).size) ∧
      ((spans.foldl procSpan acc).size = acc.size →
        (spans.foldl procSpan acc).font = acc.font ∧
        (spans.foldl procSpan acc).bold = acc.bold) ∧
      ((spans.foldl procSpan acc).size ≠ acc.size →
        ∃ s ∈ spans, strTrim s.text ≠ "" ∧
          s.size = (spans.foldl procSpan acc).size ∧
          (spans.foldl procSpan acc).font = s.font ∧
          (spans.foldl procSpan acc).bold = spanBold s) := by
  intro spans
  induction spans with
  | nil =>
    intro acc
    refine ⟨le_refl _, ?_, fun _ => ⟨rfl, rfl⟩, ?_⟩
    · intro s hs; exact absurd hs (List.not_mem_nil s)
    · intro hne; exact absurd rfl hne
  | cons s ss ih =>
    intro acc
    rw [List.foldl_cons]
    by_cases ht : strTrim s.text = ""
    · have hps : procSpan acc s = acc := by simp [procSpan, ht]
      rw [hps]
      obtain ⟨i1, i2, i3, i4⟩ := ih acc
      refine ⟨i1, ?_, i3, ?_⟩
      · intro s2 hs2 hne
        rcases List.mem_cons.mp hs2 with rfl | h2
        · exact absurd ht hne
        · exact i2 s2 h2 hne
      · intro hne
        obtain ⟨s2, hs2, rest⟩ := i4 hne
        exact ⟨s2, List.mem_cons_of_mem _ hs2, rest⟩
    · by_cases hsz : acc.size < s.size
      · have hps : procSpan acc s =
            ⟨acc.text ++ strTrim s.text ++ " ", s.size, s.font, spanBold s⟩ := by
          simp [procSpan, ht, hsz]
        rw [hps]
        obtain ⟨i1, i2, i3, i4⟩ :=
          ih ⟨acc.text ++ strTrim s.text ++ " ", s.size, s.font, spanBold s⟩
        refine ⟨le_trans (le_of_lt hsz) i1, ?_, ?_, ?_⟩
        · intro s2 hs2 hne
          rcases List.mem_cons.mp hs2 with rfl | h2
          · exact i1
          · exact i2 s2 h2 hne
        · intro heq
          exact absurd (heq ▸ i1) (not_le.mpr hsz)
        · intro hne
          by_cases hfin : (ss.foldl procSpan
              ⟨acc.text ++ strTrim s.text ++ " ", s.size, s.font, spanBold s⟩).size =
              (⟨acc.text ++ strTrim s.text ++ " ", s.size, s.font,
                spanBold s⟩ : LineAcc).size
          · obtain ⟨hf, hb⟩ := i3 hfin
            exact ⟨s, List.mem_cons_self _ _, ht, hfin.symm, hf, hb⟩
          · obtain ⟨s2, hs2, rest⟩ := i4 hfin
            exact ⟨s2, List.mem_cons_of_mem _ hs2, rest⟩
      · have hps : procSpan acc s =
            ⟨acc.text ++ strTrim s.text ++ " ", acc.size, acc.font, acc.bold⟩ := by
          simp [procSpan, ht, hsz]
        rw [hps]
        obtain ⟨i1, i2, i3, i4⟩ :=
          ih ⟨acc.text ++ strTrim s.text ++ " ", acc.size, acc.font, acc.bold⟩
        refine ⟨i1, ?_, i3, ?_⟩
        · intro s2 hs2 hne
          rcases List.mem_cons.mp hs2 with rfl | h2
          · exact le_trans (not_lt.mp hsz) i1
          · exact i2 s2 h2 hne
        · intro hne
          obtain ⟨s2, hs2, rest⟩ := i4 hne
          exact ⟨s2, List.mem_cons_of_mem _ hs2, rest⟩

/-- Claim C7: for every line that `extract_text_blocks` turns into a
`TextBlock`, the block's `font_size` is the maximum size among the
spans the scan sees (those whose trimmed text is non-empty), and
`font_name` and `is_bold` are copied from a span attaining that
maximum, with boldness decided by that span's font name ("bold" or
"black", case-insensitive) or its flag bit of value 16 — not an OR
across all spans of the line. -/
theorem C7_line_font_attribution (pg : ℕ) (ln : Line) (b : TextBlock)
    (hb : lineToBlock pg ln = some b) :
    (∀ s ∈ ln.spans, strTrim s.text ≠ "" → s.size ≤ b.font_size) ∧
    ∃ s ∈ ln.spans, strTrim s.text ≠ "" ∧ s.size = b.font_size ∧
      b.font_name = s.font ∧ b.is_bold = spanBold s := by
  unfold lineToBlock lineFold at hb
  by_cases hc : strTrim (ln.spans.foldl procSpan ⟨"", 0, "", false⟩).text ≠ "" ∧
      0 < (ln.spans.foldl procSpan ⟨"", 0, "", false⟩).size
  · rw [if_pos hc] at hb
    obtain rfl := (Option.some.inj hb).symm
    obtain ⟨i1, i2, i3, i4⟩ := foldl_procSpan_invariant ln.spans ⟨"", 0, "", false⟩
    have hne : (ln.spans.foldl procSpan ⟨"", 0, "", false⟩).size ≠
        (⟨"", 0, "", false⟩ : LineAcc).size := ne_of_gt hc.2
    obtain ⟨s, hs, hst, hsize, hfont, hbold⟩ := i4 hne
    exact ⟨fun s2 hs2 hne2 => i2 s2 hs2 hne2, s, hs, hst, hsize, hfont, hbold⟩
  · rw [if_neg hc] at hb
    exact Option.noConfusion hb

/-- Witness for C7 on a one-span line: the emitted block carries that
span's size, font and boldness. -/
theorem C7_line_font_attribution_witness :
    (∀ s ∈ (Line.mk [⟨"Hello", 12, "Arial-Bold", 0⟩] 1 2 3 4).spans,
        strTrim s.text ≠ "" →
        s.size ≤ (TextBlock.mk "Hello" 12 "Arial-Bold" true 3 1 2).font_size) ∧
    ∃ s ∈ (Line.mk [⟨"Hello", 12, "Arial-Bold", 0⟩] 1 2 3 4).spans,
      strTrim s.text ≠ "" ∧
      s.size = (TextBlock.mk "Hello" 12 "Arial-Bold" true 3 1 2).font_size ∧
      (TextBlock.mk "Hello" 12 "Arial-Bold" true 3 1 2).font_name = s.font ∧
      (TextBlock.mk "Hello" 12 "Arial-Bold" true 3 1 2).is_bold = spanBold s :=
  C7_line_font_attribution 3 (Line.mk [⟨"Hello", 12, "Arial-Bold", 0⟩] 1 2 3 4)
    (TextBlock.mk "Hello" 12 "Arial-Bold" true 3 1 2) (by decide)

/-- An engine whose documents are always empty, used to instantiate
witnesses. -/
def trivEngine : Engine := ⟨fun _ => [], fun _ => []⟩

/-- Claim C8: the extraction pipeline is deterministic — two runs of
`extract_structure` on identical inputs (same engine-reported data)
return identical results, and hence any serialization of the result
(such as the CLI's JSON rendering) is identical as well. -/
theorem C8_determinism (e : Engine) (p1 p2 : Option String)
    (b1 b2 : Option (List UInt8)) (hp : p1 = p2) (hb : b1 = b2) :
    extract_structure e p1 b1 = extract_structure e p2 b2 ∧
    ∀ enc : StructureResult → String,
      (extract_structure e p1 b1).map enc = (extract_structure e p2 b2).map enc := by
  subst hp
  subst hb
  exact ⟨rfl, fun _ => rfl⟩

/-- Witness for C8: two runs on the same bytes agree. -/
theorem C8_determinism_witness :
    extract_structure trivEngine none (some [37, 80, 68, 70]) =
      extract_structure trivEngine none (some [37, 80, 68, 70]) :=
  (C8_determinism trivEngine none none (some [37, 80, 68, 70])
    (some [37, 80, 68, 70]) rfl rfl).1

/-- Claim C10: calling `extract_structure` with empty byte content and
no path raises the contract-violation `ValueError` rather than opening
a document — empty bytes behave exactly like absent bytes; and
non-empty bytes take precedence over a simultaneously supplied path. -/
theorem C10_input_dispatch :
    (∀ e : Engine, extract_structure e none (some []) =
      Except.error "Must provide pdf_path or pdf_bytes") ∧
    (∀ e : Engine, extract_structure e none (some []) =
      extract_structure e none none) ∧
    (∀ (e : Engine) (path : String) (bs : List UInt8), bs ≠ [] →
      extract_structure e (some path) (some bs) =
        Except.ok (extractDoc (e.openBytes bs))) := by
  refine ⟨fun e => rfl, fun e => rfl, ?_⟩
  intro e path bs hbs
  have ht : truthyBytes (some bs) = true := by
    simp [truthyBytes, hbs]
  unfold extract_structure
  rw [if_pos ht]
  rfl

/-- Witness for C10: non-empty bytes alongside a path dispatch to the
byte-opening branch. -/
theorem C10_input_dispatch_witness :
    extract_structure trivEngine (some "doc.pdf") (some [37]) =
      Except.ok (extractDoc (trivEngine.openBytes [37])) :=
  C10_input_dispatch.2.2 trivEngine "doc.pdf" [37] (List.cons_ne_nil _ _)

end PdfExtract
